import Mathlib

/-!
Verification development for the teleterm terminal backends.

The definitions below are shallow embeddings of the C sources:
  * `match_red_heart`, `match_colored_heart`, `match_orange_heart`,
    `match_purple_heart`, `ends_with_purple_heart` embed the UTF-8 emoji
    lexer of bot_common.c (lines 244-285); input byte strings are
    `List Nat` of byte values.
  * `send_keys_step` / `send_keys_loop` / `send_keys_compile` embed the
    key-compilation loop shared by `backend_send_keys` in backend_tmux.c
    (lines 267-441) and backend_macos.c (lines 620-711).  The two C loops
    are byte-for-byte identical in their control flow except for the green
    heart (Cmd) marker, which the tmux variant skips and the macOS variant
    ORs into the pending modifiers; the Boolean parameter `cg`
    ("cmd-on-green") selects between the two.  The C `while (len > 0)` loop
    is realized with a fuel argument instantiated to the input length;
    the lemmas on consumption show one unit of fuel per iteration suffices.
  * `backend_capture_text_tmux` embeds backend_tmux.c lines 178-217.
  * `connected_scan` / `backend_connected_mac` embed backend_macos.c
    lines 353-400.
  * `backend_list_entry` / `backend_list_mac` embed the candidate filter of
    backend_macos.c lines 236-290.
  * `ConnState`, `disconnect_state`, `attach_session`,
    `handle_list_request` embed the shared connection state of
    bot_common.c (lines 36-43, 292-299, 617-624, 652-684).
-/

/-! ## Emoji lexer (bot_common.c lines 244-285) -/

/-- Embeds `match_red_heart`: red heart is E2 9D A4, optionally followed by
the variation selector EF B8 8F; returns bytes consumed, 0 when no match. -/
def match_red_heart : List Nat → Nat
  | 0xE2 :: 0x9D :: 0xA4 :: 0xEF :: 0xB8 :: 0x8F :: _ => 6
  | 0xE2 :: 0x9D :: 0xA4 :: _ => 3
  | _ => 0

/-- Embeds `match_colored_heart`: blue F0 9F 92 99, green F0 9F 92 9A,
yellow F0 9F 92 9B.  Returns (bytes consumed, heart tag); the tag is only
meaningful when the consumed count is nonzero, mirroring the C out-param. -/
def match_colored_heart : List Nat → Nat × Char
  | 0xF0 :: 0x9F :: 0x92 :: b :: _ =>
    if b = 0x99 then (4, 'B')
    else if b = 0x9A then (4, 'G')
    else if b = 0x9B then (4, 'Y')
    else (0, ' ')
  | _ => (0, ' ')

/-- Embeds `match_orange_heart`: F0 9F A7 A1. -/
def match_orange_heart : List Nat → Nat
  | 0xF0 :: 0x9F :: 0xA7 :: 0xA1 :: _ => 4
  | _ => 0

/-- Embeds `match_purple_heart`: F0 9F 92 9C. -/
def match_purple_heart : List Nat → Nat
  | 0xF0 :: 0x9F :: 0x92 :: 0x9C :: _ => 4
  | _ => 0

/-- Embeds `ends_with_purple_heart`: the last four bytes of the input form
a purple heart. -/
def ends_with_purple_heart (l : List Nat) : Bool :=
  if 4 ≤ l.length then match_purple_heart (l.drop (l.length - 4)) != 0
  else false

/-! ## Abstract key events

Both backends deliver each compiled keystroke either as a character with a
modifier set or as a named key (Return / Tab / Escape) with a modifier set;
`Key`/`KeyEvent` capture that common shape (tmux renders it as a
`send-keys` argument such as `C-M-x`, macOS as a CGEvent). -/

inductive Key where
  | ch : Nat → Key
  | ret : Key
  | tab : Key
  | esc : Key
deriving DecidableEq

/-- One delivered keystroke: key identity plus modifier bit set
(1 = Ctrl, 2 = Alt, 4 = Cmd, as in backend_macos.c MOD_*; backend_tmux.c
uses the same bits 1 and 2 for Ctrl and Alt). -/
structure KeyEvent where
  key : Key
  mods : Nat
deriving DecidableEq

/-- The mutable locals of the C compilation loop: `mods`, `keycount`,
`had_mods`, `last_was_nl`, plus the number of input bytes consumed so far
(the C code advances `p` and decrements `len` by the same amount) and the
ordered list of emitted key events. -/
structure SendState where
  mods : Nat
  keycount : Nat
  had_mods : Bool
  last_was_nl : Bool
  consumed : Nat
  events : List KeyEvent
deriving DecidableEq

def init_send_state : SendState :=
  { mods := 0, keycount := 0, had_mods := false, last_was_nl := false,
    consumed := 0, events := [] }

/-- One iteration of the `while (len > 0)` body of `backend_send_keys`
(backend_tmux.c lines 301-425, backend_macos.c lines 645-699).  Returns the
updated state and the number of bytes consumed.  `cg = true` selects the
macOS behaviour for the green heart (Cmd modifier); `cg = false` the tmux
behaviour (marker skipped).  The branch order mirrors the C: red heart,
orange heart, colored hearts, then `last_was_nl = 0` followed by the
backslash escapes, then the regular-character case. -/
def send_keys_step (cg : Bool) (l : List Nat) (st : SendState) : SendState × Nat :=
  let n := match_red_heart l
  if 0 < n then
    ({ st with mods := st.mods ||| 1, consumed := st.consumed + n }, n)
  else
    let n2 := match_orange_heart l
    if 0 < n2 then
      ({ st with events := st.events ++ [⟨Key.ret, st.mods⟩],
                 had_mods := st.had_mods || (st.mods != 0),
                 keycount := st.keycount + 1, last_was_nl := true, mods := 0,
                 consumed := st.consumed + n2 }, n2)
    else
      let mc := match_colored_heart l
      if 0 < mc.1 then
        (if mc.2 = 'Y' then
          { st with events := st.events ++ [⟨Key.esc, 0⟩],
                    keycount := st.keycount + 1, had_mods := true,
                    last_was_nl := false, mods := 0,
                    consumed := st.consumed + mc.1 }
         else if mc.2 = 'B' then
          { st with mods := st.mods ||| 2, consumed := st.consumed + mc.1 }
         else
          { st with mods := if cg then st.mods ||| 4 else st.mods,
                    consumed := st.consumed + mc.1 }, mc.1)
      else
        match l with
        | 0x5C :: 0x6E :: _ =>
          ({ st with events := st.events ++ [⟨Key.ret, st.mods⟩],
                     had_mods := st.had_mods || (st.mods != 0),
                     keycount := st.keycount + 1, last_was_nl := true,
                     mods := 0, consumed := st.consumed + 2 }, 2)
        | 0x5C :: 0x74 :: _ =>
          ({ st with events := st.events ++ [⟨Key.tab, st.mods⟩],
                     had_mods := st.had_mods || (st.mods != 0),
                     keycount := st.keycount + 1, last_was_nl := false,
                     mods := 0, consumed := st.consumed + 2 }, 2)
        | 0x5C :: 0x5C :: _ =>
          ({ st with events := st.events ++ [⟨Key.ch 0x5C, st.mods⟩],
                     had_mods := st.had_mods || (st.mods != 0),
                     keycount := st.keycount + 1, last_was_nl := false,
                     mods := 0, consumed := st.consumed + 2 }, 2)
        | b :: _ =>
          ({ st with events := st.events ++ [⟨Key.ch b, st.mods⟩],
                     had_mods := st.had_mods || (st.mods != 0),
                     keycount := st.keycount + 1, last_was_nl := false,
                     mods := 0, consumed := st.consumed + 1 }, 1)
        | [] => (st, 0)

/-- The `while (len > 0)` loop, with explicit fuel; `send_keys_compile`
instantiates the fuel to the input length, which the consumption lemmas
show is exactly enough. -/
def send_keys_loop (cg : Bool) : Nat → List Nat → SendState → SendState
  | 0, _, st => st
  | _ + 1, [], st => st
  | fuel + 1, b :: rest, st =>
    send_keys_loop cg fuel
      ((b :: rest).drop (send_keys_step cg (b :: rest) st).2)
      (send_keys_step cg (b :: rest) st).1

/-- The input actually fed to the compilation loop: `backend_send_keys`
drops the final four bytes when the text ends with a purple heart
(`if (!add_newline && len >= 4) len -= 4;`). -/
def effective_input (text : List Nat) : List Nat :=
  if ends_with_purple_heart text = true ∧ 4 ≤ text.length then
    text.take (text.length - 4)
  else text

/-- Embeds the compilation performed by `backend_send_keys`: the final
state of the loop, and the trailing-Return decision
`add_newline && !(keycount == 1 && had_mods) && !last_was_nl`
(backend_tmux.c line 436, backend_macos.c line 705). -/
def send_keys_compile (cg : Bool) (text : List Nat) : SendState × Bool :=
  let add_newline := !ends_with_purple_heart text
  let input := effective_input text
  let st := send_keys_loop cg input.length input init_send_state
  (st, add_newline && !((st.keycount == 1) && st.had_mods) && !st.last_was_nl)

/-- Red heart bytes (without variation selector). -/
def red_heart_bytes : List Nat := [0xE2, 0x9D, 0xA4]

/-- Red heart bytes followed by the variation selector. -/
def red_heart_vs_bytes : List Nat := [0xE2, 0x9D, 0xA4, 0xEF, 0xB8, 0x8F]

def blue_heart_bytes : List Nat := [0xF0, 0x9F, 0x92, 0x99]

def green_heart_bytes : List Nat := [0xF0, 0x9F, 0x92, 0x9A]

def yellow_heart_bytes : List Nat := [0xF0, 0x9F, 0x92, 0x9B]

def orange_heart_bytes : List Nat := [0xF0, 0x9F, 0xA7, 0xA1]

def purple_heart_bytes : List Nat := [0xF0, 0x9F, 0x92, 0x9C]

example :
    (send_keys_compile false [104, 105]).1.events =
      [⟨Key.ch 104, 0⟩, ⟨Key.ch 105, 0⟩] ∧
    (send_keys_compile false [104, 105]).2 = true := by decide

example :
    (send_keys_compile false (red_heart_vs_bytes ++ [99])).1.events =
      [⟨Key.ch 99, 1⟩] ∧
    (send_keys_compile false (red_heart_vs_bytes ++ [99])).2 = false := by
  decide

example :
    (send_keys_compile true [0x5C, 0x6E]).1.events = [⟨Key.ret, 0⟩] ∧
    (send_keys_compile true [0x5C, 0x6E]).2 = false := by decide

example :
    (send_keys_compile false yellow_heart_bytes).1.events = [⟨Key.esc, 0⟩] ∧
    (send_keys_compile false yellow_heart_bytes).2 = false := by decide

example :
    (send_keys_compile false ([104] ++ purple_heart_bytes)).1.events =
      [⟨Key.ch 104, 0⟩] ∧
    (send_keys_compile false ([104] ++ purple_heart_bytes)).2 = false := by
  decide

/-! ## Lexer consumption lemmas -/

lemma match_red_heart_le (l : List Nat) : match_red_heart l ≤ l.length := by
  unfold match_red_heart
  split <;> simp

lemma match_orange_heart_le (l : List Nat) :
    match_orange_heart l ≤ l.length := by
  unfold match_orange_heart
  split <;> simp

lemma match_colored_heart_le (l : List Nat) :
    (match_colored_heart l).1 ≤ l.length := by
  unfold match_colored_heart
  split
  · split_ifs <;> simp
  · simp

/-- Each loop iteration on a nonempty remainder consumes at least one and at
most `l.length` bytes. -/
lemma send_keys_step_bounds (cg : Bool) (l : List Nat) (st : SendState)
    (h : l ≠ []) :
    1 ≤ (send_keys_step cg l st).2 ∧ (send_keys_step cg l st).2 ≤ l.length := by
  unfold send_keys_step
  by_cases h1 : 0 < match_red_heart l
  · simpa [h1] using ⟨h1, match_red_heart_le l⟩
  · simp only [h1, if_false]
    by_cases h2 : 0 < match_orange_heart l
    · simpa [h2] using ⟨h2, match_orange_heart_le l⟩
    · simp only [h2, if_false]
      by_cases h3 : 0 < (match_colored_heart l).1
      · simpa [h3] using ⟨h3, match_colored_heart_le l⟩
      · simp only [h3, if_false]
        split <;> simp_all

/-- Each iteration advances `consumed` by exactly the bytes it consumes. -/
lemma send_keys_step_consumed (cg : Bool) (l : List Nat) (st : SendState) :
    (send_keys_step cg l st).1.consumed =
      st.consumed + (send_keys_step cg l st).2 := by
  unfold send_keys_step
  by_cases h1 : 0 < match_red_heart l
  · simp [h1]
  · simp only [h1, if_false]
    by_cases h2 : 0 < match_orange_heart l
    · simp [h2]
    · simp only [h2, if_false]
      by_cases h3 : 0 < (match_colored_heart l).1
      · by_cases hy : (match_colored_heart l).2 = 'Y'
        · simp [h3, hy]
        · by_cases hb : (match_colored_heart l).2 = 'B'
          · simp [h3, hy, hb]
          · simp [h3, hy, hb]
      · simp only [h3, if_false]
        split <;> simp

/-- With fuel at least the remaining length, the loop consumes every byte
exactly once. -/
lemma send_keys_loop_consumed (cg : Bool) :
    ∀ (fuel : Nat) (l : List Nat) (st : SendState), l.length ≤ fuel →
      (send_keys_loop cg fuel l st).consumed = st.consumed + l.length := by
  intro fuel
  induction fuel with
  | zero =>
    intro l st hl
    have : l = [] := List.eq_nil_of_length_eq_zero (Nat.le_zero.mp hl)
    subst this
    simp [send_keys_loop]
  | succ fuel ih =>
    intro l st hl
    match l with
    | [] => simp [send_keys_loop]
    | b :: rest =>
      have hne : (b :: rest) ≠ [] := by simp
      obtain ⟨hpos, hle⟩ := send_keys_step_bounds cg (b :: rest) st hne
      rw [send_keys_loop]
      have hfuel : ((b :: rest).drop (send_keys_step cg (b :: rest) st).2).length
          ≤ fuel := by
        simp only [List.length_drop, List.length_cons] at hl hle ⊢
        omega
      rw [ih _ _ hfuel, send_keys_step_consumed]
      simp only [List.length_drop, List.length_cons] at hl hle ⊢
      omega

/-- Fuel irrelevance: any two fuels at least the input length give the same
result, i.e. the loop terminates within `l.length` iterations. -/
lemma send_keys_loop_fuel (cg : Bool) :
    ∀ (fuel₁ fuel₂ : Nat) (l : List Nat) (st : SendState),
      l.length ≤ fuel₁ → l.length ≤ fuel₂ →
      send_keys_loop cg fuel₁ l st = send_keys_loop cg fuel₂ l st := by
  intro fuel₁
  induction fuel₁ with
  | zero =>
    intro fuel₂ l st h1 h2
    have : l = [] := List.eq_nil_of_length_eq_zero (Nat.le_zero.mp h1)
    subst this
    cases fuel₂ <;> simp [send_keys_loop]
  | succ fuel ih =>
    intro fuel₂ l st h1 h2
    match l with
    | [] => cases fuel₂ <;> simp [send_keys_loop]
    | b :: rest =>
      have hlen : 1 ≤ (b :: rest).length := by simp
      match fuel₂ with
      | 0 => omega
      | fuel₂ + 1 =>
        rw [send_keys_loop, send_keys_loop]
        have hne : (b :: rest) ≠ [] := by simp
        obtain ⟨hpos, hle⟩ := send_keys_step_bounds cg (b :: rest) st hne
        apply ih
        · simp only [List.length_drop, List.length_cons] at h1 hle ⊢; omega
        · simp only [List.length_drop, List.length_cons] at h2 hle ⊢; omega

/-! ## Relating the loop flags to the emitted events -/

/-- The events that set the C `had_mods` flag: an event that carries a
modifier, or an Escape (the yellow-heart branch sets `had_mods = 1`
unconditionally in both backends). -/
def had_mods_of (es : List KeyEvent) : Bool :=
  es.any (fun e => e.mods != 0 || e.key == Key.esc)

/-- Whether the last emitted event is a Return. -/
def last_is_ret (es : List KeyEvent) : Bool :=
  match es.getLast? with
  | some e => e.key == Key.ret
  | none => false

/-- Loop invariant: the three C counters/flags are determined by the list
of events emitted so far. -/
def SendInv (st : SendState) : Prop :=
  st.keycount = st.events.length ∧
  st.had_mods = had_mods_of st.events ∧
  st.last_was_nl = last_is_ret st.events

@[simp] lemma key_ret_beq_esc : (Key.ret == Key.esc) = false := by decide

@[simp] lemma key_tab_beq_esc : (Key.tab == Key.esc) = false := by decide

@[simp] lemma key_esc_beq_esc : (Key.esc == Key.esc) = true := by decide

@[simp] lemma key_ch_beq_esc (n : Nat) : (Key.ch n == Key.esc) = false := by
  rw [beq_eq_false_iff_ne]
  simp

@[simp] lemma key_ret_beq_ret : (Key.ret == Key.ret) = true := by decide

@[simp] lemma key_tab_beq_ret : (Key.tab == Key.ret) = false := by decide

@[simp] lemma key_esc_beq_ret : (Key.esc == Key.ret) = false := by decide

@[simp] lemma key_ch_beq_ret (n : Nat) : (Key.ch n == Key.ret) = false := by
  rw [beq_eq_false_iff_ne]
  simp

lemma had_mods_of_append (es : List KeyEvent) (e : KeyEvent) :
    had_mods_of (es ++ [e]) =
      (had_mods_of es || (e.mods != 0 || e.key == Key.esc)) := by
  simp [had_mods_of]

lemma last_is_ret_append (es : List KeyEvent) (e : KeyEvent) :
    last_is_ret (es ++ [e]) = (e.key == Key.ret) := by
  simp [last_is_ret, List.getLast?_concat]

lemma send_keys_step_inv (cg : Bool) (l : List Nat) (st : SendState)
    (h : SendInv st) : SendInv (send_keys_step cg l st).1 := by
  obtain ⟨h1, h2, h3⟩ := h
  unfold send_keys_step
  by_cases ha : 0 < match_red_heart l
  · simpa [ha, SendInv] using ⟨h1, h2, h3⟩
  · simp only [ha, if_false]
    by_cases hb : 0 < match_orange_heart l
    · simp [hb, SendInv, had_mods_of_append, last_is_ret_append, h1, h2, h3]
    · simp only [hb, if_false]
      by_cases hc : 0 < (match_colored_heart l).1
      · by_cases hy : (match_colored_heart l).2 = 'Y'
        · simp [hc, hy, SendInv, had_mods_of_append, last_is_ret_append,
                h1, h2, h3]
        · by_cases hblue : (match_colored_heart l).2 = 'B'
          · simpa [hc, hy, hblue, SendInv] using ⟨h1, h2, h3⟩
          · simpa [hc, hy, hblue, SendInv] using ⟨h1, h2, h3⟩
      · simp only [hc, if_false]
        split <;>
          simp [SendInv, had_mods_of_append, last_is_ret_append, h1, h2, h3]

lemma send_keys_loop_inv (cg : Bool) :
    ∀ (fuel : Nat) (l : List Nat) (st : SendState), SendInv st →
      SendInv (send_keys_loop cg fuel l st) := by
  intro fuel
  induction fuel with
  | zero => intro l st h; simpa [send_keys_loop] using h
  | succ fuel ih =>
    intro l st h
    match l with
    | [] => simpa [send_keys_loop] using h
    | b :: rest =>
      rw [send_keys_loop]
      exact ih _ _ (send_keys_step_inv cg _ _ h)

lemma send_inv_init : SendInv init_send_state := by
  refine ⟨rfl, rfl, rfl⟩

/-! ## Trailing-Return policies -/

/-- The trailing-Return policy exactly as the specification states it
("a Return is appended unless: (a) the suppress-newline marker was present
at the end of input, (b) exactly one key-event was emitted in total and it
carried at least one modifier, (c) the last emitted event was itself a
Return"), phrased over the compiled event list. -/
def trailing_policy_spec (cg : Bool) (text : List Nat) : Bool :=
  (!ends_with_purple_heart text) &&
  !(((send_keys_compile cg text).1.events.length == 1) &&
    (send_keys_compile cg text).1.events.any (fun e => e.mods != 0)) &&
  !(last_is_ret (send_keys_compile cg text).1.events)

/-- The trailing-Return policy as the code implements it, phrased over the
compiled event list: clause (b) fires when the single emitted event either
carried a modifier or was an Escape (the yellow-heart branch sets
`had_mods` unconditionally). -/
def trailing_policy_amended (cg : Bool) (text : List Nat) : Bool :=
  (!ends_with_purple_heart text) &&
  !(((send_keys_compile cg text).1.events.length == 1) &&
    had_mods_of (send_keys_compile cg text).1.events) &&
  !(last_is_ret (send_keys_compile cg text).1.events)

/-- Claim C1 counterexample: on the input consisting solely of the Escape
marker (yellow heart), both backends emit a single Escape event with no
modifiers, the policy stated by the claim would append a trailing Return,
but `backend_send_keys` does not (its `had_mods` flag is also set by the
Escape branch, so the single-keystroke suppression fires). -/
theorem c1_counterexample :
    (send_keys_compile false yellow_heart_bytes).1.events = [⟨Key.esc, 0⟩] ∧
    (send_keys_compile true yellow_heart_bytes).1.events = [⟨Key.esc, 0⟩] ∧
    trailing_policy_spec false yellow_heart_bytes = true ∧
    trailing_policy_spec true yellow_heart_bytes = true ∧
    (send_keys_compile false yellow_heart_bytes).2 = false ∧
    (send_keys_compile true yellow_heart_bytes).2 = false := by decide

/-- Claim C1 (amended): for every input and for both backends, a trailing
Return is appended if and only if none of the following hold: (a) the
suppress-newline marker ends the input, (b) exactly one key-event was
emitted and it either carried a modifier or was an Escape, (c) the last
emitted event was a Return. -/
theorem c1_trailing_return_policy (cg : Bool) (text : List Nat) :
    (send_keys_compile cg text).2 = trailing_policy_amended cg text := by
  obtain ⟨h1, h2, h3⟩ :=
    send_keys_loop_inv cg (effective_input text).length (effective_input text)
      init_send_state send_inv_init
  simp only [send_keys_compile, trailing_policy_amended]
  rw [h1, h2, h3]

/-- Claim C2: appending a purple heart to a string that does not already
end in one compiles to exactly the same key events, and the trailing-Return
decision becomes false; the marker itself never becomes a key event. -/
theorem c2_purple_heart_suppression (cg : Bool) (text : List Nat)
    (h : ends_with_purple_heart text = false) :
    (send_keys_compile cg (text ++ purple_heart_bytes)).1.events =
      (send_keys_compile cg text).1.events ∧
    (send_keys_compile cg (text ++ purple_heart_bytes)).2 = false := by
  have hlen : (text ++ purple_heart_bytes).length = text.length + 4 := by
    simp [purple_heart_bytes]
  have hp : ends_with_purple_heart (text ++ purple_heart_bytes) = true := by
    unfold ends_with_purple_heart
    rw [hlen]
    rw [if_pos (by omega)]
    rw [Nat.add_sub_cancel, List.drop_left]
    decide
  have heff : effective_input (text ++ purple_heart_bytes) = text := by
    unfold effective_input
    rw [if_pos ⟨hp, by omega⟩]
    rw [hlen, Nat.add_sub_cancel, List.take_left]
  have heff2 : effective_input text = text := by
    unfold effective_input
    rw [if_neg]
    intro hc
    rw [h] at hc
    exact absurd hc.1 (by simp)
  refine ⟨?_, ?_⟩
  · simp only [send_keys_compile]
    rw [heff, heff2]
  · simp only [send_keys_compile]
    rw [hp]
    simp

/-- Claim C2 witness: instantiation at the two-byte input "hi". -/
theorem c2_witness :
    ends_with_purple_heart [104, 105] = false ∧
    ((send_keys_compile false ([104, 105] ++ purple_heart_bytes)).1.events =
       (send_keys_compile false [104, 105]).1.events ∧
     (send_keys_compile false ([104, 105] ++ purple_heart_bytes)).2 = false) :=
  ⟨by decide, c2_purple_heart_suppression false [104, 105] (by decide)⟩

/-- Claim C3: modifiers accumulate across consecutive modifier markers and
are attached to, then cleared by, the next emitted event — Ctrl marker,
Alt marker, then byte `x` yields one event for `x` with Ctrl and Alt
(mods = 3); a following literal byte carries no modifiers; each modifier
marker alone (red with or without variation selector, blue, green) emits
no key event at all.  Holds for both backend variants. -/
theorem c3_modifier_accumulation : ∀ cg : Bool,
    (send_keys_compile cg
        (red_heart_bytes ++ blue_heart_bytes ++ [0x78])).1.events =
      [⟨Key.ch 0x78, 3⟩] ∧
    (send_keys_compile cg
        (red_heart_bytes ++ blue_heart_bytes ++ [0x78, 0x79])).1.events =
      [⟨Key.ch 0x78, 3⟩, ⟨Key.ch 0x79, 0⟩] ∧
    (send_keys_compile cg red_heart_bytes).1.events = [] ∧
    (send_keys_compile cg red_heart_vs_bytes).1.events = [] ∧
    (send_keys_compile cg blue_heart_bytes).1.events = [] ∧
    (send_keys_compile cg green_heart_bytes).1.events = [] := by decide

/-- Claim C6: the compilation loop is total and accounts for every byte of
the (purple-heart-stripped) input exactly once: the final `consumed`
counter equals the effective input length; every iteration on a nonempty
remainder consumes between 1 and `l.length` bytes; and any fuel of at
least the input length yields the same result (the loop terminates within
`length` iterations). -/
theorem c6_lexer_total (cg : Bool) (text : List Nat) :
    (send_keys_compile cg text).1.consumed = (effective_input text).length ∧
    (∀ (l : List Nat) (st : SendState), l ≠ [] →
       1 ≤ (send_keys_step cg l st).2 ∧
       (send_keys_step cg l st).2 ≤ l.length) ∧
    (∀ (fuel : Nat) (st : SendState), (effective_input text).length ≤ fuel →
       send_keys_loop cg fuel (effective_input text) st =
         send_keys_loop cg (effective_input text).length
           (effective_input text) st) := by
  refine ⟨?_, ?_, ?_⟩
  · simp only [send_keys_compile]
    rw [send_keys_loop_consumed cg _ _ _ (le_refl _)]
    simp [init_send_state]
  · exact fun l st hne => send_keys_step_bounds cg l st hne
  · exact fun fuel st hf =>
      send_keys_loop_fuel cg fuel _ _ st hf (le_refl _)

/-- Claim C6 witness: instantiation at the input "hi", a singleton
remainder, and fuel 7. -/
theorem c6_witness :
    (send_keys_compile false [104, 105]).1.consumed =
      (effective_input [104, 105]).length ∧
    1 ≤ (send_keys_step false [104] init_send_state).2 ∧
    send_keys_loop false 7 (effective_input [104, 105]) init_send_state =
      send_keys_loop false (effective_input [104, 105]).length
        (effective_input [104, 105]) init_send_state :=
  ⟨(c6_lexer_total false [104, 105]).1,
   ((c6_lexer_total false [104, 105]).2.1 [104] init_send_state
     (by decide)).1,
   (c6_lexer_total false [104, 105]).2.2 7 init_send_state (by decide)⟩

/-! ## Text capture, tmux variant (backend_tmux.c lines 178-217) -/

/-- Embeds `backend_capture_text` of backend_tmux.c: NULL when not
connected or when the captured text is empty; otherwise the trailing run of
newline and space characters is removed (`while (len > 0 && (text[len-1]
== '\n' || text[len-1] == ' ')) len--;` followed by truncation at `len`),
and NULL is returned when nothing remains.  `captured` stands for the bytes
read from the `tmux capture-pane -p` subprocess. -/
def backend_capture_text_tmux (connected : Bool) (captured : List Char) :
    Option (List Char) :=
  if connected = false then none
  else if captured.length = 0 then none
  else
    let stripped :=
      (captured.reverse.dropWhile (fun c => c == '\n' || c == ' ')).reverse
    if 0 < stripped.length then some stripped else none

/-- Claim C4, evaluation at the failing input: with pane text "hi\n" the
code returns "hi" — the trailing newline is removed, although the
specification (and the comment in the code itself, "Keep one trailing
newline for readability") says one trailing newline is preserved when
content precedes it.  The empty-result cases do behave as claimed. -/
theorem c4_capture_strips_final_newline :
    backend_capture_text_tmux true ['h', 'i', '\n'] = some ['h', 'i'] ∧
    backend_capture_text_tmux true ['h', 'i', '\n'] ≠
      some ['h', 'i', '\n'] ∧
    backend_capture_text_tmux true ['\n', ' ', '\n'] = none ∧
    backend_capture_text_tmux true [] = none ∧
    backend_capture_text_tmux false ['h', 'i'] = none := by decide

/-! ## Return value of backend_send_keys (Claim C10) -/

/-- Embeds the return-value behaviour of `backend_send_keys` in both
backends: `-1` immediately when no attachment exists; otherwise the loop
runs, every per-key delivery status (`tmux_send_key` / `tmux_send_literal`
results in the tmux variant, void `send_key` posts in the macOS variant) is
discarded, and the function returns `0`.  `delivery_status` stands for the
statuses of the individual delivery subcommands that the C code ignores. -/
def backend_send_keys_ret (connected : Bool) (delivery_status : List Int)
    (cg : Bool) (text : List Nat) : Int :=
  if connected = false then -1
  else
    let _compiled := send_keys_compile cg text
    let _ignored := delivery_status
    0

/-- Claim C10: with an attachment, `backend_send_keys` returns success (0)
for every input and every combination of per-key delivery outcomes; the
failure value (-1) is returned exactly when no attachment exists. -/
theorem c10_send_keys_return (connected : Bool) (delivery_status : List Int)
    (cg : Bool) (text : List Nat) :
    backend_send_keys_ret connected delivery_status cg text =
      (if connected then 0 else -1) := by
  cases connected <;> simp [backend_send_keys_ret]

/-! ## Connection liveness, macOS variant (backend_macos.c lines 353-400) -/

/-- One entry of the `CGWindowListCopyWindowInfo` result as
`backend_connected` reads it: window number, owner pid (either may be
absent, in which case the C code skips the entry), and the window layer
(absent means the C default `layer = 0`). -/
structure MacWindow where
  wid : Option Nat
  pid : Option Nat
  layer : Option Int
deriving DecidableEq

/-- The scanning loop of `backend_connected`: entries missing window id or
pid are skipped; an entry whose id equals the connected id stops the scan
(`found = 1; break`); otherwise the first layer-0 entry owned by the
connected pid is recorded as fallback while `fallback_wid` is still 0 (the
C sentinel for "unset").  The C code reads the layer only after the pid and
sentinel tests succeed; the reads are side-effect free, so the three tests
are combined into one condition here. -/
def connected_scan (cid cpid : Nat) : List MacWindow → Nat → Bool × Nat
  | [], fb => (false, fb)
  | w :: rest, fb =>
    match w.wid, w.pid with
    | some wid, some pid =>
      if wid = cid then (true, fb)
      else
        connected_scan cid cpid rest
          (if pid = cpid ∧ fb = 0 ∧ w.layer.getD 0 = 0 then wid else fb)
    | _, _ => connected_scan cid cpid rest fb

/-- Embeds `backend_connected` of backend_macos.c: returns 0 when not
connected; otherwise scans the on-screen window list and, when the
recorded window id is gone but a same-pid layer-0 fallback exists
(`!found && fallback_wid`), rewrites `ConnectedId` to the fallback id and
reports alive.  The second component is the rewritten id (`none` = the
recorded id is left untouched). -/
def backend_connected_mac (connected : Bool) (cid cpid : Nat)
    (ws : List MacWindow) : Bool × Option Nat :=
  if connected = false then (false, none)
  else
    let r := connected_scan cid cpid ws 0
    if r.1 = false ∧ r.2 ≠ 0 then (true, some r.2) else (r.1, none)

lemma connected_scan_fb_preserved (cid cpid : Nat) (ws : List MacWindow) :
    ∀ fb : Nat, fb ≠ 0 → (connected_scan cid cpid ws fb).2 = fb := by
  induction ws with
  | nil => intro fb _; simp [connected_scan]
  | cons w rest ih =>
    intro fb hfb
    rcases hwid : w.wid with _ | wid
    · simp only [connected_scan, hwid]
      exact ih fb hfb
    · rcases hpid : w.pid with _ | pid
      · simp only [connected_scan, hwid, hpid]
        exact ih fb hfb
      · simp only [connected_scan, hwid, hpid]
        by_cases he : wid = cid
        · simp [he]
        · rw [if_neg he]
          have : ¬(pid = cpid ∧ fb = 0 ∧ w.layer.getD 0 = 0) := by
            intro hc
            exact hfb hc.2.1
          rw [if_neg this]
          exact ih fb hfb

lemma connected_scan_not_found (cid cpid : Nat) (ws : List MacWindow) :
    ∀ fb : Nat, (∀ w ∈ ws, w.wid ≠ some cid) →
      (connected_scan cid cpid ws fb).1 = false ∧
      ((connected_scan cid cpid ws fb).2 = fb ∨
       ∃ w ∈ ws, w.wid = some (connected_scan cid cpid ws fb).2 ∧
         w.pid = some cpid ∧ w.layer.getD 0 = 0) := by
  induction ws with
  | nil => intro fb h; simp [connected_scan]
  | cons w rest ih =>
    intro fb h
    have hw : w.wid ≠ some cid := h w (by simp)
    have hrest : ∀ w' ∈ rest, w'.wid ≠ some cid := fun w' hw' =>
      h w' (by simp [hw'])
    rcases hwid : w.wid with _ | wid
    · simp only [connected_scan, hwid]
      obtain ⟨ha, hb⟩ := ih fb hrest
      refine ⟨ha, ?_⟩
      rcases hb with hb | ⟨w', hw', hrest'⟩
      · exact Or.inl hb
      · exact Or.inr ⟨w', by simp [hw'], hrest'⟩
    · rcases hpid : w.pid with _ | pid
      · simp only [connected_scan, hwid, hpid]
        obtain ⟨ha, hb⟩ := ih fb hrest
        refine ⟨ha, ?_⟩
        rcases hb with hb | ⟨w', hw', hrest'⟩
        · exact Or.inl hb
        · exact Or.inr ⟨w', by simp [hw'], hrest'⟩
      · have hne : wid ≠ cid := by
          intro e
          exact hw (by rw [hwid, e])
        simp only [connected_scan, hwid, hpid, if_neg hne]
        by_cases hcond : pid = cpid ∧ fb = 0 ∧ w.layer.getD 0 = 0
        · rw [if_pos hcond]
          obtain ⟨ha, hb⟩ := ih wid hrest
          refine ⟨ha, ?_⟩
          rcases hb with hb | ⟨w', hw', hrest'⟩
          · refine Or.inr ⟨w, by simp, ?_, ?_, ?_⟩
            · rw [hwid, hb]
            · rw [hpid, hcond.1]
            · exact hcond.2.2
          · exact Or.inr ⟨w', by simp [hw'], hrest'⟩
        · rw [if_neg hcond]
          obtain ⟨ha, hb⟩ := ih fb hrest
          refine ⟨ha, ?_⟩
          rcases hb with hb | ⟨w', hw', hrest'⟩
          · exact Or.inl hb
          · exact Or.inr ⟨w', by simp [hw'], hrest'⟩

lemma connected_scan_finds_fallback (cid cpid : Nat) (ws : List MacWindow) :
    ∀ fb : Nat, (∀ w ∈ ws, w.wid ≠ some cid) →
      (∃ w ∈ ws, ∃ n : Nat, w.wid = some n ∧ n ≠ 0 ∧ w.pid = some cpid ∧
        w.layer.getD 0 = 0) →
      fb = 0 → (connected_scan cid cpid ws fb).2 ≠ 0 := by
  induction ws with
  | nil =>
    intro fb h hq hfb
    obtain ⟨w, hw, _⟩ := hq
    exact absurd hw (by simp)
  | cons w rest ih =>
    intro fb h hq hfb
    subst hfb
    have hw : w.wid ≠ some cid := h w (by simp)
    have hrest : ∀ w' ∈ rest, w'.wid ≠ some cid := fun w' hw' =>
      h w' (by simp [hw'])
    rcases hwid : w.wid with _ | wid
    · simp only [connected_scan, hwid]
      refine ih 0 hrest ?_ rfl
      obtain ⟨w', hw', n, hn⟩ := hq
      rcases List.mem_cons.mp hw' with rfl | hmem
      · rw [hwid] at hn; exact absurd hn.1 (by simp)
      · exact ⟨w', hmem, n, hn⟩
    · rcases hpid : w.pid with _ | pid
      · simp only [connected_scan, hwid, hpid]
        refine ih 0 hrest ?_ rfl
        obtain ⟨w', hw', n, hn⟩ := hq
        rcases List.mem_cons.mp hw' with rfl | hmem
        · rw [hpid] at hn; exact absurd hn.2.2.1 (by simp)
        · exact ⟨w', hmem, n, hn⟩
      · have hne : wid ≠ cid := by
          intro e; exact hw (by rw [hwid, e])
        simp only [connected_scan, hwid, hpid, if_neg hne]
        by_cases hcond : pid = cpid ∧ w.layer.getD 0 = 0
        · have hsel : (if pid = cpid ∧ True ∧ w.layer.getD 0 = 0
              then wid else 0) = wid := by
            rw [if_pos ⟨hcond.1, trivial, hcond.2⟩]
          rw [hsel]
          by_cases hwz : wid = 0
          · subst hwz
            refine ih 0 hrest ?_ rfl
            obtain ⟨w', hw', n, hn⟩ := hq
            rcases List.mem_cons.mp hw' with rfl | hmem
            · rw [hwid] at hn
              have : n = 0 := by
                have := hn.1
                simpa using this.symm
              exact absurd this hn.2.1
            · exact ⟨w', hmem, n, hn⟩
          · rw [connected_scan_fb_preserved cid cpid rest wid hwz]
            exact hwz
        · have hsel : (if pid = cpid ∧ True ∧ w.layer.getD 0 = 0
              then wid else 0) = 0 := by
            rw [if_neg]
            intro hc
            exact hcond ⟨hc.1, hc.2.2⟩
          rw [hsel]
          refine ih 0 hrest ?_ rfl
          obtain ⟨w', hw', n, hn⟩ := hq
          rcases List.mem_cons.mp hw' with rfl | hmem
          · exfalso
            apply hcond
            refine ⟨?_, hn.2.2.2⟩
            rw [hpid] at hn
            have := hn.2.2.1
            simpa using this
          · exact ⟨w', hmem, n, hn⟩

lemma connected_scan_no_fallback (cid cpid : Nat) (ws : List MacWindow) :
    ∀ fb : Nat, (∀ w ∈ ws, ¬(w.pid = some cpid ∧ w.layer.getD 0 = 0)) →
      (connected_scan cid cpid ws fb).2 = fb := by
  induction ws with
  | nil => intro fb _; simp [connected_scan]
  | cons w rest ih =>
    intro fb h
    have hw : ¬(w.pid = some cpid ∧ w.layer.getD 0 = 0) := h w (by simp)
    have hrest : ∀ w' ∈ rest, ¬(w'.pid = some cpid ∧ w'.layer.getD 0 = 0) :=
      fun w' hw' => h w' (by simp [hw'])
    rcases hwid : w.wid with _ | wid
    · simp only [connected_scan, hwid]
      exact ih fb hrest
    · rcases hpid : w.pid with _ | pid
      · simp only [connected_scan, hwid, hpid]
        exact ih fb hrest
      · simp only [connected_scan, hwid, hpid]
        by_cases he : wid = cid
        · simp [he]
        · rw [if_neg he]
          have hsel : (if pid = cpid ∧ fb = 0 ∧ w.layer.getD 0 = 0
              then wid else fb) = fb := by
            rw [if_neg]
            intro hc
            exact hw ⟨by rw [hpid, hc.1], hc.2.2⟩
          rw [hsel]
          exact ih fb hrest

lemma connected_scan_found (cid cpid : Nat) (ws : List MacWindow) :
    ∀ fb : Nat, (∃ w ∈ ws, w.wid = some cid ∧ w.pid.isSome = true) →
      (connected_scan cid cpid ws fb).1 = true := by
  induction ws with
  | nil =>
    intro fb hq
    obtain ⟨w, hw, _⟩ := hq
    exact absurd hw (by simp)
  | cons w rest ih =>
    intro fb hq
    rcases hwid : w.wid with _ | wid
    · simp only [connected_scan, hwid]
      obtain ⟨w', hw', hid, hp⟩ := hq
      rcases List.mem_cons.mp hw' with rfl | hmem
      · rw [hwid] at hid; exact absurd hid (by simp)
      · exact ih fb ⟨w', hmem, hid, hp⟩
    · rcases hpid : w.pid with _ | pid
      · simp only [connected_scan, hwid, hpid]
        obtain ⟨w', hw', hid, hp⟩ := hq
        rcases List.mem_cons.mp hw' with rfl | hmem
        · rw [hpid] at hp; exact absurd hp (by simp)
        · exact ih fb ⟨w', hmem, hid, hp⟩
      · simp only [connected_scan, hwid, hpid]
        by_cases he : wid = cid
        · simp [he]
        · rw [if_neg he]
          obtain ⟨w', hw', hid, hp⟩ := hq
          rcases List.mem_cons.mp hw' with rfl | hmem
          · rw [hwid] at hid
            exact absurd (by simpa using hid) he
          · exact ih _ ⟨w', hmem, hid, hp⟩

/-- Claim C5: the liveness/reattachment behaviour of `backend_connected`
(accessibility-tree variant).  (1) If the recorded window id is gone but
some other layer-0 on-screen window with a nonzero window id is owned by
the recorded pid, the check reports alive and rewrites the recorded id to
such a window's id.  (2) If the recorded id is gone and no window owned by
the recorded pid sits at layer 0, the check reports dead and the recorded
id is not rewritten.  (3) If some window still carries the recorded id
(and has an owner pid, which the window server always reports), the check
reports alive with no rewrite.  Nonzero window ids reflect that
`kCGWindowNumber` is never the null window id 0, which the C code uses as
the "no fallback yet" sentinel. -/
theorem c5_connected_reattach (cid cpid : Nat) (ws : List MacWindow) :
    ((∀ w ∈ ws, w.wid ≠ some cid) →
     (∃ w ∈ ws, ∃ n : Nat, w.wid = some n ∧ n ≠ 0 ∧ w.pid = some cpid ∧
        w.layer.getD 0 = 0) →
     (backend_connected_mac true cid cpid ws).1 = true ∧
     ∃ m : Nat, (backend_connected_mac true cid cpid ws).2 = some m ∧
       ∃ w ∈ ws, w.wid = some m ∧ w.pid = some cpid ∧
         w.layer.getD 0 = 0) ∧
    ((∀ w ∈ ws, w.wid ≠ some cid) →
     (∀ w ∈ ws, ¬(w.pid = some cpid ∧ w.layer.getD 0 = 0)) →
     backend_connected_mac true cid cpid ws = (false, none)) ∧
    ((∃ w ∈ ws, w.wid = some cid ∧ w.pid.isSome = true) →
     backend_connected_mac true cid cpid ws = (true, none)) := by
  refine ⟨?_, ?_, ?_⟩
  · intro hno hex
    obtain ⟨hfound, hqual⟩ := connected_scan_not_found cid cpid ws 0 hno
    have hnz : (connected_scan cid cpid ws 0).2 ≠ 0 :=
      connected_scan_finds_fallback cid cpid ws 0 hno hex rfl
    have hq : ∃ w ∈ ws, w.wid = some (connected_scan cid cpid ws 0).2 ∧
        w.pid = some cpid ∧ w.layer.getD 0 = 0 := by
      rcases hqual with hq0 | hq
      · exact absurd hq0 hnz
      · exact hq
    unfold backend_connected_mac
    rw [if_neg (by simp)]
    rw [if_pos ⟨hfound, hnz⟩]
    exact ⟨rfl, (connected_scan cid cpid ws 0).2, rfl, hq⟩
  · intro hno hnq
    obtain ⟨hfound, _⟩ := connected_scan_not_found cid cpid ws 0 hno
    have hfb : (connected_scan cid cpid ws 0).2 = 0 :=
      connected_scan_no_fallback cid cpid ws 0 hnq
    unfold backend_connected_mac
    rw [if_neg (by simp)]
    rw [if_neg (by rw [hfb]; intro hc; exact hc.2 rfl)]
    rw [hfound]
  · intro hex
    have hfound : (connected_scan cid cpid ws 0).1 = true :=
      connected_scan_found cid cpid ws 0 hex
    unfold backend_connected_mac
    rw [if_neg (by simp)]
    rw [if_neg (by rw [hfound]; intro hc; exact absurd hc.1 (by simp))]
    rw [hfound]

def win_a : MacWindow := ⟨some 7, some 9, some 0⟩

def win_b : MacWindow := ⟨some 8, some 10, some 0⟩

def win_c : MacWindow := ⟨some 5, some 9, none⟩

/-- Claim C5 witness: concrete instantiations of the three branches. -/
theorem c5_witness :
    ((backend_connected_mac true 5 9 [win_b, win_a]).1 = true ∧
     ∃ m : Nat, (backend_connected_mac true 5 9 [win_b, win_a]).2 = some m ∧
       ∃ w ∈ [win_b, win_a], w.wid = some m ∧ w.pid = some 9 ∧
         w.layer.getD 0 = 0) ∧
    backend_connected_mac true 5 9 [win_b] = (false, none) ∧
    backend_connected_mac true 5 9 [win_c, win_a] = (true, none) :=
  ⟨(c5_connected_reattach 5 9 [win_b, win_a]).1 (by decide)
     ⟨win_a, by decide, 7, rfl, by decide, rfl, rfl⟩,
   (c5_connected_reattach 5 9 [win_b]).2.1 (by decide) (by decide),
   (c5_connected_reattach 5 9 [win_c, win_a]).2.2
     ⟨win_c, by decide, rfl, rfl⟩⟩

/-! ## Session enumeration, macOS variant (backend_macos.c lines 236-290) -/

/-- The `TermInfo` record of backend.h: backend-specific id string, owner
pid, display name, and title (fixed C buffers of 128/128/256 bytes; the
`strncpy`/`snprintf` copies are modelled with `take` of the capacity minus
the NUL terminator). -/
structure TermInfo where
  id : List Char
  pid : Nat
  name : List Char
  title : List Char
deriving DecidableEq

/-- The `TerminalApps` table of backend_macos.c. -/
def terminal_apps : List (List Char) :=
  [ "Terminal".toList, "iTerm2".toList, "iTerm".toList, "Ghostty".toList,
    "kitty".toList, "Alacritty".toList, "Hyper".toList, "Warp".toList,
    "WezTerm".toList, "Tabby".toList ]

def lower_list (l : List Char) : List Char := l.map Char.toLower

/-- Substring test (case-sensitive) on char lists. -/
def contains_sub (needle : List Char) : List Char → Bool
  | [] => needle.isEmpty
  | c :: rest => needle.isPrefixOf (c :: rest) || contains_sub needle rest

/-- Embeds `is_terminal_app`: `strcasestr(name, TerminalApps[i])` for any
table entry, i.e. a case-insensitive substring test. -/
def is_terminal_app (name : List Char) : Bool :=
  terminal_apps.any (fun app => contains_sub (lower_list app) (lower_list name))

/-- One entry of the `CGWindowListCopyWindowInfo` result as `backend_list`
reads it: owner name, window number, owner pid, layer (absent reads as the
C default 0), bounds as (width, height), and title.  Window bounds are
`CGFloat`; only order comparisons against 50 are performed on them, so they
are modelled as integers. -/
structure RawWin where
  owner : Option (List Char)
  wid : Option Nat
  pid : Option Nat
  layer : Option Int
  bounds : Option (Int × Int)
  title : Option (List Char)
deriving DecidableEq

/-- Embeds the per-window filter of `backend_list` (backend_macos.c lines
236-290): skip when the owner name is missing; skip non-terminal owners
unless DangerMode; skip when window id or pid is missing; only layer 0;
skip when bounds are missing or width or height is ≤ 50; otherwise build
the TermInfo entry (id is the window number rendered in decimal, title
defaults to empty).  The later title/activity backfill pass (lines
294-344) only rewrites `title`/`command` of entries already admitted and is
not part of the filter. -/
def backend_list_entry (danger : Bool) (w : RawWin) : Option TermInfo :=
  match w.owner with
  | none => none
  | some owner =>
    if danger = false ∧ is_terminal_app owner = false then none
    else
      match w.wid with
      | none => none
      | some wid =>
        match w.pid with
        | none => none
        | some pid =>
          if w.layer.getD 0 ≠ 0 then none
          else
            match w.bounds with
            | none => none
            | some (wd, ht) =>
              if wd ≤ 50 ∨ ht ≤ 50 then none
              else some ⟨(Nat.repr wid).toList, pid, owner.take 127,
                         (w.title.getD []).take 255⟩

/-- Embeds the enumeration loop of `backend_list`: the produced session
list is the window list filtered and mapped by `backend_list_entry`. -/
def backend_list_mac (danger : Bool) (raw : List RawWin) : List TermInfo :=
  raw.filterMap (backend_list_entry danger)

lemma backend_list_entry_some (danger : Bool) (w : RawWin) (e : TermInfo)
    (hfe : backend_list_entry danger w = some e) :
    ∃ (o : List Char) (n p : Nat) (wd ht : Int),
      w.owner = some o ∧ w.wid = some n ∧ w.pid = some p ∧
      w.layer.getD 0 = 0 ∧ w.bounds = some (wd, ht) ∧ 50 < wd ∧ 50 < ht ∧
      e.id = (Nat.repr n).toList ∧ e.pid = p ∧ e.name = o.take 127 := by
  unfold backend_list_entry at hfe
  split at hfe
  · exact absurd hfe (by simp)
  · rename_i owner howner
    split at hfe
    · exact absurd hfe (by simp)
    · split at hfe
      · exact absurd hfe (by simp)
      · rename_i n hwid
        split at hfe
        · exact absurd hfe (by simp)
        · rename_i p hpid
          split at hfe
          · exact absurd hfe (by simp)
          · rename_i hlayer
            split at hfe
            · exact absurd hfe (by simp)
            · rename_i wd ht hbounds
              split at hfe
              · exact absurd hfe (by simp)
              · rename_i hsz
                push_neg at hsz
                have he' := Option.some.inj hfe
                subst he'
                exact ⟨owner, n, p, wd, ht, howner, hwid, hpid,
                       not_ne_iff.mp hlayer, hbounds, hsz.1, hsz.2,
                       rfl, rfl, rfl⟩

/-- Claim C7: every entry the accessibility-tree enumeration produces comes
from an on-screen window that has all identity fields (owner name, window
id, owner pid), sits at layer 0, and has width and height above 50; any
window failing one of these conditions contributes no entry. -/
theorem c7_list_invariant (danger : Bool) (raw : List RawWin) :
    (∀ e ∈ backend_list_mac danger raw,
       ∃ w ∈ raw, ∃ (o : List Char) (n p : Nat) (wd ht : Int),
         w.owner = some o ∧ w.wid = some n ∧ w.pid = some p ∧
         w.layer.getD 0 = 0 ∧ w.bounds = some (wd, ht) ∧ 50 < wd ∧ 50 < ht ∧
         e.id = (Nat.repr n).toList ∧ e.pid = p ∧ e.name = o.take 127) ∧
    (∀ w : RawWin,
       (w.owner = none ∨ w.wid = none ∨ w.pid = none ∨ w.layer.getD 0 ≠ 0 ∨
        w.bounds = none ∨
        (∃ wd ht : Int, w.bounds = some (wd, ht) ∧ (wd ≤ 50 ∨ ht ≤ 50))) →
       backend_list_entry danger w = none) := by
  constructor
  · intro e he
    rw [backend_list_mac, List.mem_filterMap] at he
    obtain ⟨w, hw, hfe⟩ := he
    exact ⟨w, hw, backend_list_entry_some danger w e hfe⟩
  · intro w h
    rcases hfe : backend_list_entry danger w with _ | e
    · rfl
    · exfalso
      obtain ⟨o, n, p, wd, ht, ho, hn, hp, hl, hb, hwd, hht, _, _, _⟩ :=
        backend_list_entry_some danger w e hfe
      rcases h with h | h | h | h | h | ⟨wd', ht', hb', hle⟩
      · rw [ho] at h; exact absurd h (by simp)
      · rw [hn] at h; exact absurd h (by simp)
      · rw [hp] at h; exact absurd h (by simp)
      · exact h hl
      · rw [hb] at h; exact absurd h (by simp)
      · rw [hb] at hb'
        have hwd' : wd = wd' := by
          have := (Prod.mk.injEq _ _ _ _).mp (Option.some.inj hb')
          exact this.1
        have hht' : ht = ht' := by
          have := (Prod.mk.injEq _ _ _ _).mp (Option.some.inj hb')
          exact this.2
        subst hwd'
        subst hht'
        rcases hle with hle | hle
        · omega
        · omega

def raw_good : RawWin :=
  ⟨some ("Terminal".toList), some 7, some 9, some 0, some (100, 200), none⟩

def raw_small : RawWin :=
  ⟨some ("Terminal".toList), some 8, some 9, some 0, some (10, 10), none⟩

def entry_good : TermInfo :=
  ⟨(Nat.repr 7).toList, 9, ("Terminal".toList).take 127, []⟩

/-- Claim C7 witness: on a concrete two-window list, the produced entry
traces back to the qualifying window, and the undersized window is
rejected. -/
theorem c7_witness :
    (∃ w ∈ [raw_good, raw_small], ∃ (o : List Char) (n p : Nat)
        (wd ht : Int),
        w.owner = some o ∧ w.wid = some n ∧ w.pid = some p ∧
        w.layer.getD 0 = 0 ∧ w.bounds = some (wd, ht) ∧ 50 < wd ∧ 50 < ht ∧
        entry_good.id = (Nat.repr n).toList ∧
        entry_good.pid = p ∧
        entry_good.name = o.take 127) ∧
    backend_list_entry true raw_small = none :=
  ⟨(c7_list_invariant true [raw_good, raw_small]).1 entry_good (by decide),
   (c7_list_invariant true [raw_good, raw_small]).2 raw_small
     (Or.inr (Or.inr (Or.inr (Or.inr (Or.inr
       ⟨10, 10, rfl, Or.inl (by decide)⟩)))))⟩

/-! ## Connection state (bot_common.c lines 36-43, 292-299, 617-684) -/

/-- The process-wide connection state of bot_common.c: `Connected`,
`ConnectedId`, `ConnectedPid`, `ConnectedName`, `ConnectedTitle`, and the
tracked-message counter that `disconnect()` also resets. -/
structure ConnState where
  connected : Bool
  id : List Char
  pid : Nat
  name : List Char
  title : List Char
  trackedMsgCount : Nat
deriving DecidableEq

/-- The C global initializers (lines 36-43, 57): everything zeroed. -/
def init_conn_state : ConnState :=
  { connected := false, id := [], pid := 0, name := [], title := [],
    trackedMsgCount := 0 }

/-- Embeds `disconnect()` (bot_common.c lines 292-299). -/
def disconnect_state (s : ConnState) : ConnState :=
  { s with connected := false, id := [], pid := 0, name := [], title := [],
           trackedMsgCount := 0 }

/-- Embeds the attach branch of `handle_request` (bot_common.c lines
661-670): copy the selected TermInfo's fields over the connection state
(strncpy with buffer sizes 128/128/256) and set `Connected = 1`; nothing
of the previous attachment is read and no teardown toward it happens. -/
def attach_session (t : TermInfo) (s : ConnState) : ConnState :=
  { s with connected := true, id := t.id.take 127, pid := t.pid,
           name := t.name.take 127, title := t.title.take 255 }

/-- Parse the leading decimal digits of a char list, as `atoi` does on the
digit-only strings `%u` writes into `ConnectedId`. -/
def atoi_digits (l : List Char) : Nat :=
  (l.takeWhile (fun c => c.isDigit)).foldl
    (fun acc c => acc * 10 + (c.toNat - 48)) 0

/-- The state effect of `backend_connected` (macOS variant) on the
connection state: untouched when not connected (the function returns 0
immediately); otherwise `ConnectedId` is rewritten exactly when the
fallback branch fires. -/
def backend_connected_update (ws : List MacWindow) (s : ConnState) :
    Bool × ConnState :=
  if s.connected = false then (false, s)
  else
    let r := backend_connected_mac true (atoi_digits s.id) s.pid ws
    (r.1, { s with id := match r.2 with
                         | some n => (Nat.repr n).toList
                         | none => s.id })

/-- The ConnectionState invariant of the specification: whenever no
attachment exists, the identity fields are empty and the pid is zero. -/
def conn_inv (s : ConnState) : Prop :=
  s.connected = false →
    (s.id = [] ∧ s.pid = 0 ∧ s.name = [] ∧ s.title = [])

/-- Claim C8: the invariant "Connected = false implies all connection
fields empty/zero" holds initially and is preserved by `disconnect`, by
attaching, and by the liveness/reattachment update; and attaching
determines every connection field from the new session alone — the
previous attachment is overwritten with no teardown toward it. -/
theorem c8_state_invariant :
    conn_inv init_conn_state ∧
    (∀ s : ConnState, conn_inv (disconnect_state s)) ∧
    (∀ (t : TermInfo) (s : ConnState), conn_inv s →
       conn_inv (attach_session t s)) ∧
    (∀ (ws : List MacWindow) (s : ConnState), conn_inv s →
       conn_inv (backend_connected_update ws s).2) ∧
    (∀ (t : TermInfo) (s : ConnState),
       (attach_session t s).connected = true ∧
       (attach_session t s).id = t.id.take 127 ∧
       (attach_session t s).pid = t.pid ∧
       (attach_session t s).name = t.name.take 127 ∧
       (attach_session t s).title = t.title.take 255) := by
  refine ⟨?_, ?_, ?_, ?_, ?_⟩
  · intro _
    exact ⟨rfl, rfl, rfl, rfl⟩
  · intro s _
    exact ⟨rfl, rfl, rfl, rfl⟩
  · intro t s _ hc
    simp [attach_session] at hc
  · intro ws s hinv
    unfold backend_connected_update
    by_cases hc : s.connected = false
    · rw [if_pos hc]
      exact hinv
    · rw [if_neg hc]
      intro hfalse
      simp only at hfalse
      exact absurd hfalse hc
  · intro t s
    exact ⟨rfl, rfl, rfl, rfl, rfl⟩

def term_demo : TermInfo := ⟨['3'], 3, ['n'], ['t']⟩

/-- Claim C8 witness: concrete instantiations of the preservation facts. -/
theorem c8_witness :
    conn_inv (disconnect_state (attach_session term_demo init_conn_state)) ∧
    conn_inv (attach_session term_demo init_conn_state) ∧
    conn_inv (backend_connected_update [] init_conn_state).2 ∧
    (attach_session term_demo init_conn_state).connected = true :=
  ⟨c8_state_invariant.2.1 (attach_session term_demo init_conn_state),
   c8_state_invariant.2.2.1 term_demo init_conn_state
     (c8_state_invariant.1),
   c8_state_invariant.2.2.2.1 [] init_conn_state (c8_state_invariant.1),
   (c8_state_invariant.2.2.2.2 term_demo init_conn_state).1⟩

/-- Embeds the `.list` branch of `handle_request` (bot_common.c lines
617-624): it calls `disconnect()` and then builds the listing reply; the
reply text does not touch the connection state, so the state effect is
exactly `disconnect_state`. -/
def handle_list_request (s : ConnState) : ConnState :=
  disconnect_state s

/-- Claim C9 (implicit): handling a `.list` command clears the connection
state — afterwards `Connected` is false and id, pid, name, title are all
reset — although listing is specified only as returning a directory. -/
theorem c9_list_disconnects (s : ConnState) :
    (handle_list_request s).connected = false ∧
    (handle_list_request s).id = [] ∧
    (handle_list_request s).pid = 0 ∧
    (handle_list_request s).name = [] ∧
    (handle_list_request s).title = [] :=
  ⟨rfl, rfl, rfl, rfl, rfl⟩
